import Mathlib

/-!
Verification development for the wavetable subsystem (`lib/table.py`).

The Python layer under study is a thin wrapper over native per-channel base
objects (`HarmTable_base`, `LinTable_base`, `SndTable_base`, `TableRec_base`)
and external collaborators (`sndinfo`, `InputFader`).  Wherever the behaviour
lives in the Python file we embed that code directly; where it lives in the
missing native layer we model it from the specification, as marked on each
definition.  All sample values are rationals; the sine evaluation used by the
harmonic generator is abstracted as an explicit function parameter since exact
real sine is not executable.
-/

/-- Executable maximum on rationals (the order-theoretic `max` does not
kernel-reduce on `ℚ`). -/
def qmax (a b : ℚ) : ℚ := if a ≤ b then b else a

theorem qmax_eq_max (a b : ℚ) : qmax a b = max a b := by
  by_cases h : a ≤ b <;> simp [qmax, max_def, h]

/-- Executable absolute value on rationals (the lattice-theoretic `abs` does
not kernel-reduce on `ℚ`). -/
def qabs (x : ℚ) : ℚ := if x ≤ 0 then -x else x

theorem qabs_eq_abs (x : ℚ) : qabs x = |x| := by
  rw [qabs]
  by_cases h : x ≤ 0
  · rw [if_pos h, abs_of_nonpos h]
  · rw [if_neg h, abs_of_pos (lt_of_not_le h)]

/-- Peak amplitude of a buffer: maximum of the absolute values of its samples
(0 for the empty buffer). -/
def peak (l : List ℚ) : ℚ :=
  (l.map qabs).foldr qmax 0

/-- Modelled from the spec: the raw (pre-normalization) buffer generated by
`HarmTable_base`: sample i is the weighted sum over partials k+1 of
`weights[k] * sin(2*pi*(k+1)*i/size)`.  The sine table is abstracted as the
parameter `sf`, with `sf k i` standing for `sin(2*pi*k*i/size)`. -/
def harmRaw (weights : List ℚ) (size : ℕ) (sf : ℕ → ℕ → ℚ) : List ℚ :=
  (List.range size).map
    (fun i => ∑ k in Finset.range weights.length, weights.getD k 0 * sf (k + 1) i)

/-- Modelled from the spec: the buffer generated by `HarmTable_base`
construction / `replace`: the raw weighted sum, peak-normalized unless the
peak is zero (in which case the raw buffer — silence — is kept as is). -/
def harmBuffer (weights : List ℚ) (size : ℕ) (sf : ℕ → ℕ → ℚ) : List ℚ :=
  let raw := harmRaw weights size sf
  let m := peak raw
  if m = 0 then raw else raw.map (fun x => x / m)

theorem peak_cons (a : ℚ) (l : List ℚ) : peak (a :: l) = max |a| (peak l) := by
  show qmax (qabs a) (peak l) = max |a| (peak l)
  rw [qabs_eq_abs, qmax_eq_max]

theorem peak_nonneg (l : List ℚ) : 0 ≤ peak l := by
  induction l with
  | nil => exact le_refl 0
  | cons a l ih => rw [peak_cons]; exact le_trans ih (le_max_right _ _)

theorem peak_map_div (l : List ℚ) (m : ℚ) (hm : 0 < m) :
    peak (l.map (fun x => x / m)) = peak l / m := by
  induction l with
  | nil => simp [peak]
  | cons a l ih =>
      have habs : |a / m| = |a| / m := by
        rw [abs_div, abs_of_pos hm]
      calc peak ((a :: l).map (fun x => x / m))
          = max (|a / m|) (peak (l.map (fun x => x / m))) := peak_cons _ _
        _ = max (|a| / m) (peak l / m) := by rw [habs, ih]
        _ = max |a| (peak l) / m := max_div_div_right (le_of_lt hm) _ _
        _ = peak (a :: l) / m := by rw [peak_cons]

theorem peak_eq_zero_of_forall_zero (l : List ℚ) (h : ∀ x ∈ l, x = 0) :
    peak l = 0 := by
  induction l with
  | nil => rfl
  | cons a l ih =>
      rw [peak_cons, h a (List.mem_cons_self a l),
        ih (fun x hx => h x (List.mem_cons_of_mem a hx))]
      simp

/-- C1: after `HarmTable` construction or `replace(weights)`, the buffer is
peak-normalized: when the raw peak is nonzero every sample is divided by it so
the buffer's peak is exactly 1; when the weights are all zero (in particular
when the list is empty) the buffer is all zeros and no division happens. -/
theorem harmBuffer_peak_normalized (weights : List ℚ) (size : ℕ) (sf : ℕ → ℕ → ℚ) :
    (peak (harmRaw weights size sf) ≠ 0 → peak (harmBuffer weights size sf) = 1) ∧
    ((∀ w ∈ weights, w = 0) → ∀ x ∈ harmBuffer weights size sf, x = 0) := by
  constructor
  · intro hne
    have hpos : 0 < peak (harmRaw weights size sf) :=
      lt_of_le_of_ne (peak_nonneg _) (Ne.symm hne)
    rw [harmBuffer]
    simp only [if_neg hne]
    rw [peak_map_div _ _ hpos, div_self hne]
  · intro hz
    have hraw : ∀ x ∈ harmRaw weights size sf, x = 0 := by
      intro x hx
      rw [harmRaw] at hx
      rcases List.mem_map.mp hx with ⟨i, _, hi⟩
      rw [← hi]
      apply Finset.sum_eq_zero
      intro k hk
      have hk' : k < weights.length := Finset.mem_range.mp hk
      rw [List.getD_eq_getElem weights 0 hk', hz _ (List.getElem_mem hk'), zero_mul]
    intro x hx
    rw [harmBuffer] at hx
    rw [peak_eq_zero_of_forall_zero _ hraw] at hx
    simp only [if_pos rfl] at hx
    exact hraw x hx

theorem harmBuffer_peak_normalized_witness :
    (peak (harmRaw [1, -2] 2 (fun _ _ => 1)) ≠ 0 ∧
      peak (harmBuffer [1, -2] 2 (fun _ _ => 1)) = 1) ∧
    ((∀ w ∈ ([0, 0] : List ℚ), w = 0) ∧
      ∀ x ∈ harmBuffer [0, 0] 2 (fun _ _ => 1), x = 0) := by
  constructor
  · have h : peak (harmRaw [1, -2] 2 (fun _ _ => 1)) ≠ 0 := by
      norm_num [harmRaw, peak, qabs, qmax, Finset.sum_range_succ, List.range_succ]
    exact ⟨h, (harmBuffer_peak_normalized [1, -2] 2 (fun _ _ => 1)).1 h⟩
  · have h : ∀ w ∈ ([0, 0] : List ℚ), w = 0 := by decide
    exact ⟨h, (harmBuffer_peak_normalized [0, 0] 2 (fun _ _ => 1)).2 h⟩

/-- Modelled from the spec: the tail of `LinTable_base` segment rendering.
`linSeg l0 v0 rest i` is the value at index `i`, given that `i ≥ l0` where
`(l0, v0)` is the latest breakpoint at or before `i` seen so far and `rest`
the remaining breakpoints.  Within a segment the value is obtained by linear
interpolation; past the last breakpoint's location the value is 0. -/
def linSeg (l0 : ℕ) (v0 : ℚ) : List (ℕ × ℚ) → ℕ → ℚ
  | [], i => if i ≤ l0 then v0 else 0
  | (l1, v1) :: rest, i =>
      if i ≤ l1 then v0 + (v1 - v0) * ((i : ℚ) - (l0 : ℚ)) / ((l1 : ℚ) - (l0 : ℚ))
      else linSeg l1 v1 rest i

/-- Modelled from the spec: the sample rendered by `LinTable_base` at index
`i`: flat hold of the first value before the first location, linear segments
between consecutive breakpoints, and 0 after the last location. -/
def linValue (points : List (ℕ × ℚ)) (i : ℕ) : ℚ :=
  match points with
  | [] => 0
  | (l0, v0) :: rest => if i < l0 then v0 else linSeg l0 v0 rest i

/-- Modelled from the spec: the buffer rendered by `LinTable_base` from a
breakpoint list at a given size. -/
def linBuffer (points : List (ℕ × ℚ)) (size : ℕ) : List ℚ :=
  (List.range size).map (linValue points)

/-- Location of the last breakpoint of a list (0 for the empty list). -/
def lastLoc : List (ℕ × ℚ) → ℕ
  | [] => 0
  | [p] => p.1
  | _ :: rest => lastLoc rest

theorem linSeg_eq_zero (rest : List (ℕ × ℚ)) : ∀ (l0 : ℕ) (v0 : ℚ) (i : ℕ),
    (∀ p ∈ rest, p.1 < i) → l0 < i → linSeg l0 v0 rest i = 0 := by
  induction rest with
  | nil =>
      intro l0 v0 i _ hl0
      simp only [linSeg]
      exact if_neg (not_le.mpr hl0)
  | cons q rest ih =>
      intro l0 v0 i hall hl0
      obtain ⟨l1, v1⟩ := q
      simp only [linSeg]
      rw [if_neg (not_le.mpr (hall (l1, v1) (List.mem_cons_self _ _)))]
      exact ih l1 v1 i (fun p hp => hall p (List.mem_cons_of_mem _ hp))
        (hall (l1, v1) (List.mem_cons_self _ _))

theorem mem_le_lastLoc : ∀ (points : List (ℕ × ℚ)),
    List.Chain' (fun p q => p.1 < q.1) points →
    ∀ p ∈ points, p.1 ≤ lastLoc points := by
  intro points
  induction points with
  | nil => intro _ p hp; exact absurd hp (List.not_mem_nil p)
  | cons a rest ih =>
      intro hch p hp
      cases rest with
      | nil =>
          rcases List.mem_singleton.mp hp with h
          rw [h]
          exact le_refl _
      | cons b t =>
          have hab : a.1 < b.1 := (List.chain'_cons.mp hch).1
          have hrest : List.Chain' (fun p q => p.1 < q.1) (b :: t) :=
            (List.chain'_cons.mp hch).2
          have hlast : lastLoc (a :: b :: t) = lastLoc (b :: t) := rfl
          rcases List.mem_cons.mp hp with h | h
          · rw [h, hlast]
            exact le_of_lt (lt_of_lt_of_le hab
              (ih hrest b (List.mem_cons_self _ _)))
          · rw [hlast]
            exact ih hrest p h

/-- C2: for a valid breakpoint list whose last location `L` satisfies
`L < size − 1`, every buffer sample at an index `j` with `L < j ≤ size − 1`
equals 0 after `BreakpointTable` construction or `replace`. -/
theorem linBuffer_tail_zero (points : List (ℕ × ℚ)) (size j : ℕ)
    (hch : List.Chain' (fun p q => p.1 < q.1) points)
    (hlast : lastLoc points < size - 1)
    (hj : lastLoc points < j) (hj2 : j ≤ size - 1) :
    (linBuffer points size).getD j 0 = 0 := by
  have hzero : linValue points j = 0 := by
    cases points with
    | nil => rfl
    | cons a rest =>
        have haj : a.1 < j :=
          lt_of_le_of_lt (mem_le_lastLoc _ hch a (List.mem_cons_self _ _)) hj
        obtain ⟨l0, v0⟩ := a
        simp only [linValue]
        rw [if_neg (not_lt.mpr (le_of_lt haj))]
        exact linSeg_eq_zero rest l0 v0 j
          (fun p hp => lt_of_le_of_lt
            (mem_le_lastLoc _ hch p (List.mem_cons_of_mem _ hp)) hj)
          haj
  have hjsize : j < size := by omega
  have hlen : j < ((List.range size).map (linValue points)).length := by
    rw [List.length_map, List.length_range]
    exact hjsize
  rw [linBuffer, List.getD_eq_getElem _ _ hlen, List.getElem_map]
  rw [List.getElem_range]
  exact hzero

theorem linBuffer_tail_zero_witness :
    List.Chain' (fun p q => p.1 < q.1) [((0 : ℕ), (0 : ℚ)), (4, 1)] ∧
    lastLoc [((0 : ℕ), (0 : ℚ)), (4, 1)] < 8 - 1 ∧
    lastLoc [((0 : ℕ), (0 : ℚ)), (4, 1)] < 6 ∧ 6 ≤ 8 - 1 ∧
    (linBuffer [((0 : ℕ), (0 : ℚ)), (4, 1)] 8).getD 6 0 = 0 := by
  have hch : List.Chain' (fun p q : ℕ × ℚ => p.1 < q.1) [(0, 0), (4, 1)] :=
    List.chain'_cons.mpr ⟨by decide, List.chain'_singleton _⟩
  exact ⟨hch, by decide, by decide, by decide,
    linBuffer_tail_zero [((0 : ℕ), (0 : ℚ)), (4, 1)] 8 6
      hch (by decide) (by decide) (by decide)⟩

/-- Sound file paths are modelled as opaque identifiers. -/
abbrev SndPath := ℕ

/-- Modelled from the spec: one per-channel base object (`SndTable_base`).
`SndTable_base(path, chnl)` loads channel `chnl` of the file at `path`; the
sub-table is represented by that provenance. -/
structure SndSub where
  srcPath : SndPath
  srcChnl : ℕ
deriving DecidableEq

/-- State of the `SndTable` wrapper: metadata captured at construction from
`sndinfo(path)` (frame count, sample rate, channel count) plus the list of
per-channel base objects. -/
structure SndTable where
  _size : ℕ
  _snd_sr : ℚ
  _snd_chnls : ℕ
  baseObjs : List SndSub
deriving DecidableEq

/-- Constructor `SndTable.__init__`: `sndinfo` (the external decode collaborator, passed
as the function `info` returning frame count, sample rate and channel count)
is called once; with `chnl = none` one sub-table per source channel is
created, otherwise a single sub-table for the requested channel. -/
def SndTable.make (info : SndPath → ℕ × ℚ × ℕ) (path : SndPath) (chnl : Option ℕ) :
    SndTable :=
  let md := info path
  { _size := md.1, _snd_sr := md.2.1, _snd_chnls := md.2.2,
    baseObjs :=
      match chnl with
      | none => (List.range md.2.2).map (fun i => ⟨path, i⟩)
      | some c => [⟨path, c⟩] }

/-- Method `SndTable.setSound`: decode the new file's metadata into locals (the
instance attributes are not assigned), then reload base object `i` from
channel `i % newChannelCount`. -/
def SndTable.setSound (t : SndTable) (info : SndPath → ℕ × ℚ × ℕ) (path : SndPath) :
    SndTable :=
  let md := info path
  { t with baseObjs := t.baseObjs.enum.map (fun p => ⟨path, p.1 % md.2.2⟩) }

/-- Modelled from the spec: `SndTable.getRate` delegates to the base object,
which returns `sourceSampleRate / size`. -/
def SndTable.getRate (t : SndTable) : ℚ := t._snd_sr / (t._size : ℚ)

/-- Modelled from the spec: the table size in frames, as captured at load. -/
def SndTable.getSize (t : SndTable) : ℕ := t._size

/-- C3: for every successfully loaded `SndTable` (nonzero frame count),
`getRate()` is the source sample rate divided by the size, so
`getRate() * getSize()` recovers the source sample rate exactly. -/
theorem sndTable_getRate_roundtrip (t : SndTable) (h : 0 < t._size) :
    t.getRate = t._snd_sr / (t._size : ℚ) ∧
    t.getRate * (t.getSize : ℚ) = t._snd_sr := by
  refine ⟨rfl, ?_⟩
  rw [SndTable.getRate, SndTable.getSize]
  exact div_mul_cancel₀ _ (Nat.cast_ne_zero.mpr (ne_of_gt h))

theorem sndTable_getRate_roundtrip_witness :
    0 < (SndTable.mk 8820 44100 1 [⟨7, 0⟩])._size ∧
    (SndTable.mk 8820 44100 1 [⟨7, 0⟩]).getRate *
      ((SndTable.mk 8820 44100 1 [⟨7, 0⟩]).getSize : ℚ) =
      (SndTable.mk 8820 44100 1 [⟨7, 0⟩])._snd_sr :=
  ⟨by decide, (sndTable_getRate_roundtrip (SndTable.mk 8820 44100 1 [⟨7, 0⟩])
    (by decide)).2⟩

/-- C4: with the retained sub-table count fixed at construction,
`setSound(path)` on a file with `C ≥ 1` channels fills sub-table `i` from
source channel `i % C` for every retained `i`, leaving the number of retained
sub-tables unchanged. -/
theorem sndTable_setSound_wraps (t : SndTable) (info : SndPath → ℕ × ℚ × ℕ)
    (path : SndPath) (_hC : 0 < (info path).2.2) :
    (t.setSound info path).baseObjs.length = t.baseObjs.length ∧
    ∀ i, i < t.baseObjs.length →
      (t.setSound info path).baseObjs.getD i ⟨0, 0⟩ =
        ⟨path, i % (info path).2.2⟩ := by
  constructor
  · simp [SndTable.setSound, List.enum_length]
  · intro i hi
    have hlen : i < ((t.baseObjs.enum.map
        (fun p => (⟨path, p.1 % (info path).2.2⟩ : SndSub)))).length := by
      simpa [List.enum_length] using hi
    rw [SndTable.setSound]
    rw [List.getD_eq_getElem _ _ hlen, List.getElem_map, List.getElem_enum]

theorem sndTable_setSound_wraps_witness :
    0 < (((fun _ => (4, 22050, 1)) : SndPath → ℕ × ℚ × ℕ) 9).2.2 ∧
    ((SndTable.mk 4 44100 2 [⟨7, 0⟩, ⟨7, 1⟩]).setSound
      (fun _ => (4, 22050, 1)) 9).baseObjs.length =
      (SndTable.mk 4 44100 2 [⟨7, 0⟩, ⟨7, 1⟩]).baseObjs.length ∧
    ∀ i, i < (SndTable.mk 4 44100 2 [⟨7, 0⟩, ⟨7, 1⟩]).baseObjs.length →
      ((SndTable.mk 4 44100 2 [⟨7, 0⟩, ⟨7, 1⟩]).setSound
        (fun _ => (4, 22050, 1)) 9).baseObjs.getD i ⟨0, 0⟩ =
        ⟨9, i % (((fun _ => (4, 22050, 1)) : SndPath → ℕ × ℚ × ℕ) 9).2.2⟩ := by
  have h := sndTable_setSound_wraps (SndTable.mk 4 44100 2 [⟨7, 0⟩, ⟨7, 1⟩])
    (fun _ => (4, 22050, 1)) 9 (by decide)
  exact ⟨by decide, h.1, h.2⟩

/-- C9: `setSound(path)` decodes the new file's metadata into locals only:
the instance metadata captured at construction (`_size`, `_snd_sr`,
`_snd_chnls`) is unchanged, and of the newly decoded triple only the channel
count (used for the wrap index) influences the result. -/
theorem sndTable_setSound_metadata (t : SndTable)
    (info info2 : SndPath → ℕ × ℚ × ℕ) (path : SndPath)
    (hch : (info path).2.2 = (info2 path).2.2) :
    (t.setSound info path)._size = t._size ∧
    (t.setSound info path)._snd_sr = t._snd_sr ∧
    (t.setSound info path)._snd_chnls = t._snd_chnls ∧
    t.setSound info path = t.setSound info2 path := by
  refine ⟨rfl, rfl, rfl, ?_⟩
  simp only [SndTable.setSound, hch]

theorem sndTable_setSound_metadata_witness :
    ((((fun _ => (1, 2, 3)) : SndPath → ℕ × ℚ × ℕ) 5).2.2 =
      (((fun _ => (9, 9, 3)) : SndPath → ℕ × ℚ × ℕ) 5).2.2) ∧
    (((SndTable.mk 4 44100 2 [⟨7, 0⟩]).setSound (fun _ => (1, 2, 3)) 5)._size =
      (SndTable.mk 4 44100 2 [⟨7, 0⟩])._size ∧
    ((SndTable.mk 4 44100 2 [⟨7, 0⟩]).setSound (fun _ => (1, 2, 3)) 5)._snd_sr =
      (SndTable.mk 4 44100 2 [⟨7, 0⟩])._snd_sr ∧
    ((SndTable.mk 4 44100 2 [⟨7, 0⟩]).setSound
        (fun _ => (1, 2, 3)) 5)._snd_chnls =
      (SndTable.mk 4 44100 2 [⟨7, 0⟩])._snd_chnls ∧
    (SndTable.mk 4 44100 2 [⟨7, 0⟩]).setSound (fun _ => (1, 2, 3)) 5 =
      (SndTable.mk 4 44100 2 [⟨7, 0⟩]).setSound (fun _ => (9, 9, 3)) 5) :=
  ⟨by decide, sndTable_setSound_metadata (SndTable.mk 4 44100 2 [⟨7, 0⟩])
    (fun _ => (1, 2, 3)) (fun _ => (9, 9, 3)) 5 (by decide)⟩

/-- Recording state machine of the spec (4.6). -/
inductive RecState where
  | idle
  | fadingIn
  | recording
  | fadingOut
  | done
deriving DecidableEq

/-- Modelled from the spec: the external input-fader collaborator (spec 6);
its state is the current source signal (an opaque identifier) and the
crossfade duration of the latest transition. -/
structure InputFader where
  current : ℕ
  fadetime : ℚ
deriving DecidableEq

/-- Modelled from the spec: `InputFader.setInput(x, fadetime)` crossfades to
the new source `x` over `fadetime` seconds. -/
def InputFader.setInput (f : InputFader) (x : ℕ) (fadetime : ℚ) : InputFader :=
  { f with current := x, fadetime := fadetime }

/-- Modelled from the spec: one per-channel `TableRec_base` object holds the
recording state machine, the write cursor, the construction-time fade time
and the target table's recorded content. -/
structure TableRecBase where
  state : RecState
  cursor : ℕ
  fadetime : ℚ
  table : List ℚ
deriving DecidableEq

/-- State of the `TableRec` wrapper: the `_input` attribute, the `_table` reference
(opaque identifier), the `_in_fader` wrapper and the base objects. -/
structure TableRec where
  _input : ℕ
  _table : ℕ
  _in_fader : InputFader
  baseObjs : List TableRecBase
deriving DecidableEq

/-- Method `TableRec.setInput(x, fadetime)`: assign `_input` and re-route the
crossfade wrapper; the base objects are not touched. -/
def TableRec.setInput (r : TableRec) (x : ℕ) (fadetime : ℚ) : TableRec :=
  { r with _input := x, _in_fader := r._in_fader.setInput x fadetime }

/-- Method `TableRec.out(chnl)` is `pass`: no state change and no output signal. -/
def TableRec.out (r : TableRec) (_chnl : ℕ) : TableRec × Option ℕ := (r, none)

/-- Method `TableRec.setMul(x)` is `pass`. -/
def TableRec.setMul (r : TableRec) (_x : ℚ) : TableRec := r

/-- Method `TableRec.setAdd(x)` is `pass`. -/
def TableRec.setAdd (r : TableRec) (_x : ℚ) : TableRec := r

/-- The `input` property setter: `self.setInput(x)`, which uses `setInput`'s
default fade time of 0.05 seconds. -/
def TableRec.inputSet (r : TableRec) (x : ℕ) : TableRec :=
  r.setInput x (1 / 20)

/-- C7: `setInput(x, fadetime)` only routes the new source through the
crossfade wrapper: the recording state machines, write cursors and recorded
table contents held by the base objects, and the table reference, are
unchanged. -/
theorem tableRec_setInput_frame (r : TableRec) (x : ℕ) (ft : ℚ) :
    (r.setInput x ft).baseObjs = r.baseObjs ∧
    (r.setInput x ft)._table = r._table ∧
    (r.setInput x ft)._input = x ∧
    (r.setInput x ft)._in_fader = r._in_fader.setInput x ft :=
  ⟨rfl, rfl, rfl, rfl⟩

/-- C8: `TableRec` is a pure sink: `out` yields no output signal and, like
`setMul` and `setAdd`, leaves the recorder (and hence its target table's
recorded content) entirely unchanged. -/
theorem tableRec_sink (r : TableRec) (chnl : ℕ) (x a : ℚ) :
    r.out chnl = (r, none) ∧ r.setMul x = r ∧ r.setAdd a = r :=
  ⟨rfl, rfl, rfl⟩

/-- C10: the `input` property setter is `setInput` at its default fade time:
both set `_input` to `x` and re-trigger the fader with a 0.05 s crossfade,
independent of the construction-time `fadetime` stored in the base objects,
which stays untouched. -/
theorem tableRec_input_setter_eq_setInput (r : TableRec) (x : ℕ) :
    r.inputSet x = r.setInput x (1 / 20) ∧
    (r.inputSet x)._in_fader.fadetime = 1 / 20 ∧
    (r.inputSet x)._input = x ∧
    (r.inputSet x).baseObjs = r.baseObjs :=
  ⟨rfl, rfl, rfl, rfl⟩

/-- Error taxonomy entry (a) of the spec: ConfigurationError. -/
inductive ConfigError where
  | invalidSize
deriving DecidableEq

/-- Modelled from the spec: `HarmTable_base` object state — its size, the
stored harmonic weights and the generated buffer. -/
structure HarmBase where
  size : ℤ
  list : List ℚ
  buffer : List ℚ
deriving DecidableEq

/-- Modelled from the spec: `HarmTable_base.setSize` validates the new size
(ConfigurationError for size ≤ 0, raised synchronously before any mutation)
and otherwise regenerates the buffer from the stored weights. -/
def HarmBase.setSize (b : HarmBase) (sf : ℕ → ℕ → ℚ) (n : ℤ) :
    Except ConfigError HarmBase :=
  if n ≤ 0 then .error .invalidSize
  else .ok { size := n, list := b.list, buffer := harmBuffer b.list n.toNat sf }

/-- State of the `HarmTable` wrapper: `_size`, `_list` and the base object. -/
structure HarmTable where
  _size : ℤ
  _list : List ℚ
  base : HarmBase
deriving DecidableEq

/-- Method `HarmTable.setSize(size)`: the wrapper assigns `self._size = size` first,
then calls the base object's `setSize`.  When the base raises, the exception
propagates with `_size` already reassigned and the base unchanged. -/
def HarmTable.setSize (t : HarmTable) (sf : ℕ → ℕ → ℚ) (n : ℤ) :
    HarmTable × Option ConfigError :=
  let t1 : HarmTable := { t with _size := n }
  match t1.base.setSize sf n with
  | .error e => (t1, some e)
  | .ok b => ({ t1 with base := b }, none)

/-- Modelled from the spec: `LinTable_base` object state — its size, the
stored breakpoints and the rendered buffer. -/
structure LinBase where
  size : ℤ
  points : List (ℕ × ℚ)
  buffer : List ℚ
deriving DecidableEq

/-- Modelled from the spec: `LinTable_base.setSize` validates the new size
(ConfigurationError for size ≤ 0, raised synchronously before any mutation)
and otherwise re-renders the buffer from the stored points, taking locations
verbatim as sample indices. -/
def LinBase.setSize (b : LinBase) (n : ℤ) : Except ConfigError LinBase :=
  if n ≤ 0 then .error .invalidSize
  else .ok { size := n, points := b.points, buffer := linBuffer b.points n.toNat }

/-- State of the `LinTable` wrapper: `_size` and the base object. -/
structure LinTable where
  _size : ℤ
  base : LinBase
deriving DecidableEq

/-- Method `LinTable.setSize(size)`: assigns `self._size = size` first, then calls
the base object's `setSize` (same shape as `HarmTable.setSize`). -/
def LinTable.setSize (t : LinTable) (n : ℤ) : LinTable × Option ConfigError :=
  let t1 : LinTable := { t with _size := n }
  match t1.base.setSize n with
  | .error e => (t1, some e)
  | .ok b => ({ t1 with base := b }, none)

/-- C5 counterexample: on a concrete `HarmTable` of size 4, `setSize(0)` does
raise ConfigurationError, but the table's size attribute is no longer 4 at
that point — the wrapper assigned `self._size = 0` before the failing base
call, so the claim's "size unchanged" part is false. -/
theorem harmTable_setSize_nonpos_cex :
    ((HarmTable.mk 4 [1] (HarmBase.mk 4 [1] [0, 0, 0, 0])).setSize
        (fun _ _ => 0) 0).2 = some ConfigError.invalidSize ∧
    ¬ ((HarmTable.mk 4 [1] (HarmBase.mk 4 [1] [0, 0, 0, 0])).setSize
        (fun _ _ => 0) 0).1._size =
      (HarmTable.mk 4 [1] (HarmBase.mk 4 [1] [0, 0, 0, 0]))._size :=
  ⟨by decide, by decide⟩

/-- C5 amended: for every `HarmTable` and `LinTable` and every n ≤ 0,
`setSize(n)` surfaces ConfigurationError synchronously and the base object
(buffer and stored parameters) is unchanged, but the wrapper's `_size`
attribute has already been set to n when the error propagates. -/
theorem setSize_nonpos_error (t : HarmTable) (tl : LinTable)
    (sf : ℕ → ℕ → ℚ) (n : ℤ) (h : n ≤ 0) :
    ((t.setSize sf n).2 = some ConfigError.invalidSize ∧
      (t.setSize sf n).1.base = t.base ∧
      (t.setSize sf n).1._list = t._list ∧
      (t.setSize sf n).1._size = n) ∧
    ((tl.setSize n).2 = some ConfigError.invalidSize ∧
      (tl.setSize n).1.base = tl.base ∧
      (tl.setSize n).1._size = n) := by
  constructor
  · have hb : t.base.setSize sf n = .error .invalidSize := by
      rw [HarmBase.setSize, if_pos h]
    simp [HarmTable.setSize, hb]
  · have hb : tl.base.setSize n = .error .invalidSize := by
      rw [LinBase.setSize, if_pos h]
    simp [LinTable.setSize, hb]

theorem setSize_nonpos_error_witness :
    (-3 : ℤ) ≤ 0 ∧
    ((((HarmTable.mk 4 [1] (HarmBase.mk 4 [1] [0, 0, 0, 0])).setSize
          (fun _ _ => 0) (-3)).2 = some ConfigError.invalidSize ∧
      ((HarmTable.mk 4 [1] (HarmBase.mk 4 [1] [0, 0, 0, 0])).setSize
          (fun _ _ => 0) (-3)).1.base =
        (HarmTable.mk 4 [1] (HarmBase.mk 4 [1] [0, 0, 0, 0])).base ∧
      ((HarmTable.mk 4 [1] (HarmBase.mk 4 [1] [0, 0, 0, 0])).setSize
          (fun _ _ => 0) (-3)).1._list =
        (HarmTable.mk 4 [1] (HarmBase.mk 4 [1] [0, 0, 0, 0]))._list ∧
      ((HarmTable.mk 4 [1] (HarmBase.mk 4 [1] [0, 0, 0, 0])).setSize
          (fun _ _ => 0) (-3)).1._size = -3) ∧
    (((LinTable.mk 8 (LinBase.mk 8 [(0, 0), (7, 1)] [])).setSize (-3)).2 =
        some ConfigError.invalidSize ∧
      ((LinTable.mk 8 (LinBase.mk 8 [(0, 0), (7, 1)] [])).setSize (-3)).1.base =
        (LinTable.mk 8 (LinBase.mk 8 [(0, 0), (7, 1)] [])).base ∧
      ((LinTable.mk 8 (LinBase.mk 8 [(0, 0), (7, 1)] [])).setSize (-3)).1._size =
        -3)) :=
  ⟨by decide,
    setSize_nonpos_error (HarmTable.mk 4 [1] (HarmBase.mk 4 [1] [0, 0, 0, 0]))
      (LinTable.mk 8 (LinBase.mk 8 [(0, 0), (7, 1)] []))
      (fun _ _ => 0) (-3) (by decide)⟩

/-- Rendering following the spec's words for the alternative that C6 rules
out — the wrapper docstring's "rescale the envelope": map each stored
location `loc` to `loc * (newSize − 1) / (oldSize − 1)` before rendering at
the new size. -/
def linRescaledBuffer (points : List (ℕ × ℚ)) (oldSize newSize : ℕ) : List ℚ :=
  linBuffer (points.map (fun p => (p.1 * (newSize - 1) / (oldSize - 1), p.2)))
    newSize

/-- C6: for a positive new size, `LinTable.setSize(n)` re-renders the buffer
from the stored points verbatim — point locations are used as sample indices
at the new size and the stored points are kept; no automatic rescaling of the
locations happens, witnessed by a concrete table where the verbatim rendering
differs from the rescaled one. -/
theorem linTable_setSize_verbatim :
    (∀ (t : LinTable) (n : ℤ), 0 < n →
      (t.setSize n).2 = none ∧
      (t.setSize n).1.base.buffer = linBuffer t.base.points n.toNat ∧
      (t.setSize n).1.base.points = t.base.points ∧
      (t.setSize n).1._size = n) ∧
    (((LinTable.mk 8 (LinBase.mk 8 [(0, 0), (7, 1)]
        (linBuffer [(0, 0), (7, 1)] 8))).setSize 4).1.base.buffer ≠
      linRescaledBuffer [(0, 0), (7, 1)] 8 4) := by
  constructor
  · intro t n hn
    have hb : t.base.setSize n =
        .ok { size := n, points := t.base.points,
              buffer := linBuffer t.base.points n.toNat } := by
      rw [LinBase.setSize, if_neg (not_le.mpr hn)]
    simp [LinTable.setSize, hb]
  · have h4 : ((LinTable.mk 8 (LinBase.mk 8 [(0, 0), (7, 1)]
        (linBuffer [(0, 0), (7, 1)] 8))).setSize 4).1.base.buffer =
        linBuffer [(0, 0), (7, 1)] 4 := by
      have hb : (LinBase.mk 8 [(0, 0), (7, 1)]
          (linBuffer [(0, 0), (7, 1)] 8)).setSize 4 =
          .ok { size := 4, points := [(0, 0), (7, 1)],
                buffer := linBuffer [(0, 0), (7, 1)] 4 } := by
        rw [LinBase.setSize, if_neg (by decide)]
        rfl
      simp only [LinTable.setSize, hb]
    rw [h4]
    norm_num [linBuffer, linRescaledBuffer, linValue, linSeg, List.range_succ]

theorem linTable_setSize_verbatim_witness :
    (0 : ℤ) < 4 ∧
    (((LinTable.mk 8 (LinBase.mk 8 [(0, 0), (7, 1)] [])).setSize 4).2 = none ∧
      ((LinTable.mk 8 (LinBase.mk 8 [(0, 0), (7, 1)] [])).setSize 4).1.base.buffer =
        linBuffer (LinTable.mk 8 (LinBase.mk 8 [(0, 0), (7, 1)] [])).base.points
          ((4 : ℤ)).toNat ∧
      ((LinTable.mk 8 (LinBase.mk 8 [(0, 0), (7, 1)] [])).setSize 4).1.base.points =
        (LinTable.mk 8 (LinBase.mk 8 [(0, 0), (7, 1)] [])).base.points ∧
      ((LinTable.mk 8 (LinBase.mk 8 [(0, 0), (7, 1)] [])).setSize 4).1._size = 4) :=
  ⟨by decide,
    linTable_setSize_verbatim.1
      (LinTable.mk 8 (LinBase.mk 8 [(0, 0), (7, 1)] [])) 4 (by decide)⟩
